import Mathlib

/-!
Shallow embedding of the permutation-based significance engine of
`idtxl/stats.py` (IDTxl), together with theorems settling the claims about
it.  Numeric values are modelled as rationals (the Python code performs only
exact arithmetic on the inputs considered here: counting, division by a
length, comparison).  External collaborators (the CMI estimator and the data
container) are modelled as explicit parameters: the surrogate table and the
leave-one-out statistics they produce are inputs to the embedded test
procedures, exactly as the code consumes them.
-/

namespace IDTxl

/-- Errors the p-value engine can raise.  `assertionError` models the Python
`assert` on the dimensionality of the distribution (the spec calls this
`InvalidArgument`); `zeroDivisionError` models the `ZeroDivisionError` raised
by `count / distribution.shape[0]` when the distribution has length 0. -/
inductive PvErr where
  | assertionError
  | zeroDivisionError
deriving DecidableEq, Repr

/-- A numpy array of rationals, reduced to what `_find_pvalue` inspects:
its shape (list of dimension sizes) and its flat data. -/
structure NDArr where
  shape : List ℕ
  data : List ℚ
deriving DecidableEq, Repr

/-- `ndim` of a numpy array: the number of dimensions. -/
def NDArr.ndim (a : NDArr) : ℕ := a.shape.length

/-- Embed a plain list as a one-dimensional numpy array. -/
def oneD (l : List ℚ) : NDArr := ⟨[l.length], l⟩

/-- `sum(distribution > statistic)`: number of entries strictly greater than
the statistic. -/
def countGT (dist : List ℚ) (statistic : ℚ) : ℕ :=
  dist.countP (fun x => statistic < x)

/-- `sum(distribution < statistic)`: number of entries strictly smaller than
the statistic. -/
def countLT (dist : List ℚ) (statistic : ℚ) : ℕ :=
  dist.countP (fun x => x < statistic)

/-- `_find_pvalue(statistic, distribution, alpha, tail)` from
`idtxl/stats.py` lines 328-349.  The function asserts that the distribution
is one-dimensional, computes the one-tailed p-value
`sum(distribution > statistic) / distribution.shape[0]` when `tail == "one"`
and otherwise the two-tailed value
`min(p_bigger, p_smaller)`, and returns `(pvalue < alpha, pvalue)`.
A zero-length distribution makes the division raise `ZeroDivisionError`.
The Python defaults are `alpha=0.05`, `tail="one"`; call sites inside
`stats.py` always use the defaults, spelled `1/20` and `"one"` below. -/
def findPvalue (statistic : ℚ) (distribution : NDArr)
    (alpha : ℚ) (tail : String) : Except PvErr (Bool × ℚ) :=
  if distribution.ndim ≠ 1 then
    .error .assertionError
  else if distribution.data.length = 0 then
    .error .zeroDivisionError
  else
    let n : ℚ := distribution.data.length
    let pvalue : ℚ :=
      if tail = "one" then
        (countGT distribution.data statistic : ℚ) / n
      else
        min ((countGT distribution.data statistic : ℚ) / n)
            ((countLT distribution.data statistic : ℚ) / n)
    .ok (pvalue < alpha, pvalue)

/-- A candidate variable `(process index, lag)`. -/
abbrev Candidate := ℕ × ℕ

/-- A surrogate table of shape `(candidates, permutations)`, represented as
a list of its COLUMNS: one inner list per permutation, each inner list
holding one value per candidate (in candidate order). -/
abbrev SurrTable := List (List ℚ)

/-- `np.max` over one non-empty column. -/
def colMax (col : List ℚ) : ℚ := col.foldl max (col.headD 0)

/-- `np.min` over one non-empty column. -/
def colMin (col : List ℚ) : ℚ := col.foldl min (col.headD 0)

/-- `_find_table_max(table) = np.max(table, axis=0)`: the per-permutation
(per-column) maximum across candidates. -/
def findTableMax (table : SurrTable) : List ℚ := table.map colMax

/-- `_find_table_min(table) = np.min(table, axis=0)`: the per-permutation
(per-column) minimum across candidates. -/
def findTableMin (table : SurrTable) : List ℚ := table.map colMin

/-- The value a test procedure returns: either the bare boolean `True`
(the empty-candidate-set short circuit `return True`) or the pair
`(significance, pvalue)`. -/
inductive StatReturn where
  | bare (significance : Bool)
  | pair (significance : Bool) (pvalue : ℚ)
deriving DecidableEq, Repr

/-- `max_statistic(analysis_setup, data, candidate_set, te_max_candidate,
n_permutations)` from `idtxl/stats.py` lines 70-99.  The external
`_create_surrogate_table` machinery (data access plus estimator calls) is
passed in as `surrogateTable`.  The second component of the result records
whether the surrogate table was built: the code returns the bare `True`
before calling `_create_surrogate_table` when the candidate set is empty.
The calls to `_find_pvalue` use the Python defaults `alpha=0.05`,
`tail="one"`. -/
def max_statistic (surrogateTable : List Candidate → ℕ → SurrTable)
    (candidate_set : List Candidate) (te_max_candidate : ℚ)
    (n_permutations : ℕ) : Except PvErr StatReturn × Bool :=
  let test_set := candidate_set
  if test_set.isEmpty then (.ok (.bare true), false)
  else
    let stats_table := surrogateTable test_set n_permutations
    let max_distribution := findTableMax stats_table
    ((findPvalue te_max_candidate (oneD max_distribution) (1/20) "one").map
       (fun r => .pair r.1 r.2), true)

/-- `min_statistic(analysis_setup, data, candidate_set, te_min_candidate,
n_permutations)` from `idtxl/stats.py` lines 163-191: as `max_statistic`
but reducing the table with `_find_table_min`. -/
def min_statistic (surrogateTable : List Candidate → ℕ → SurrTable)
    (candidate_set : List Candidate) (te_min_candidate : ℚ)
    (n_permutations : ℕ) : Except PvErr StatReturn × Bool :=
  let test_set := candidate_set
  if test_set.isEmpty then (.ok (.bare true), false)
  else
    let stats_table := surrogateTable test_set n_permutations
    let min_distribution := findTableMin stats_table
    ((findPvalue te_min_candidate (oneD min_distribution) (1/20) "one").map
       (fun r => .pair r.1 r.2), true)

/-- Ascending in-place sort of a 1-D array (`ndarray.sort()`), modelled by
insertion sort. -/
def sortAsc (l : List ℚ) : List ℚ := List.insertionSort (· ≤ ·) l

/-- `np.argsort(l)`: indices that order `l` ascending (ties resolved by
original position). -/
def argsort (l : List ℚ) : List ℕ :=
  List.insertionSort (fun i j => l.getD i 0 ≤ l.getD j 0) (List.range l.length)

/-- `_sort_table_max(table)` from `idtxl/stats.py` lines 262-266: sorts each
column of the table ascending IN PLACE (`table[:, permutation].sort()`) and
returns the very same array.  Stateful code is modelled by explicit state
passing: the first component is the returned table, the second is the state
of the array the caller passed in, observed after the call.  Both are the
same mutated array. -/
def sort_table_max (table : SurrTable) : SurrTable × SurrTable :=
  let sorted := table.map sortAsc
  (sorted, sorted)

/-- Row `c` of a table stored as a list of columns: `table[c, ]`. -/
def tableRow (table : SurrTable) (c : ℕ) : List ℚ :=
  table.map (fun col => col.getD c 0)

/-- The rank-wise scan of `max_statistic_sequential` (`idtxl/stats.py`
lines 144-153): `significance` and `pvalue` are zero-initialized
(`np.zeros`), rank `c` evaluates the `c`-th sorted statistic against the
`c`-th row of the sorted table, assigns the outcome, and breaks out of the
loop on the first non-significant outcome, leaving all higher ranks at
`(false, 0)`.  Input: the list of `(sorted statistic, null row)` pairs. -/
def scanRanks (alpha : ℚ) : List (ℚ × List ℚ) → Except PvErr (List Bool × List ℚ)
  | [] => .ok ([], [])
  | (s, row) :: rest =>
    match findPvalue s (oneD row) alpha "one" with
    | .error e => .error e
    | .ok r =>
      if r.1 then
        match scanRanks alpha rest with
        | .error e => .error e
        | .ok (sigs, ps) => .ok (r.1 :: sigs, r.2 :: ps)
      else
        .ok (r.1 :: List.replicate rest.length false,
             r.2 :: List.replicate rest.length 0)

/-- `max_statistic_sequential(analysis_setup, data, n_permutations)` from
`idtxl/stats.py` lines 102-160.  The leave-one-out statistics
`conditional_te` (estimator calls, lines 122-132) and the surrogate table
(line 139) are external inputs here.  The code computes
`conditional_order = np.argsort(conditional_te)`, sorts the statistics
ascending, sorts the table columns with `_sort_table_max`, runs the
rank-wise scan, and finally applies the FORWARD fancy-indexing
`significance[conditional_order]` / `pvalue[conditional_order]`
(lines 156-157) before returning. -/
def max_statistic_sequential (conditional_te : List ℚ)
    (stats_table : SurrTable) : Except PvErr (List Bool × List ℚ) :=
  let conditional_order := argsort conditional_te
  let conditional_te_sorted := sortAsc conditional_te
  let max_distribution := (sort_table_max stats_table).1
  let rows := (List.range conditional_te.length).map (tableRow max_distribution)
  match scanRanks (1/20) (conditional_te_sorted.zip rows) with
  | .error e => .error e
  | .ok (significance, pvalue) =>
    .ok (conditional_order.map (fun i => significance.getD i false),
         conditional_order.map (fun i => pvalue.getD i 0))

/-- Un-sorting as the specification words it (for comparison with the code):
the i-th output elements are the outcome computed for candidate i, i.e. the
rank-wise outcomes indexed by the RANK of candidate i — the inverse of the
sort permutation. -/
def specUnsort (conditional_te : List ℚ) (sigs : List Bool) (ps : List ℚ) :
    List Bool × List ℚ :=
  let order := argsort conditional_te
  let rankOf := fun i => (List.range conditional_te.length).findIdx
    (fun k => order.getD k 0 = i)
  ((List.range conditional_te.length).map (fun i => sigs.getD (rankOf i) false),
   (List.range conditional_te.length).map (fun i => ps.getD (rankOf i) 0))

/-- One realisation row (one sample of all variables). -/
abbrev Row := List ℚ

/-- The boolean mask `replication_idx == replication` from line 321. -/
def maskOf (ridx : List ℕ) (r : ℕ) : List Bool :=
  ridx.map (fun x => decide (x = r))

/-- Fancy-indexed read `realisations[mask, :]`: the rows at mask-true
positions, in order. -/
def gatherMask : List Row → List Bool → List Row
  | [], _ => []
  | _ :: _, [] => []
  | x :: xs, b :: bs => if b then x :: gatherMask xs bs else gatherMask xs bs

/-- Fancy-indexed write `realisations[mask, :] = repl`: replace the rows at
mask-true positions by the rows of `repl`, in order. -/
def scatterMask : List Row → List Bool → List Row → List Row
  | [], _, _ => []
  | xs, [], _ => xs
  | x :: xs, b :: bs, repl =>
    if b then repl.headD x :: scatterMask xs bs repl.tail
    else x :: scatterMask xs bs repl

/-- `d[perm, :]`: row `j` of the result is row `perm[j]` of `d`. -/
def applyGather (d : List Row) (perm : List ℕ) : List Row :=
  perm.map (fun j => d.getD j [])

/-- `max(replication_idx)` (line 320; numpy max of a non-empty array,
seeded with 0 here). -/
def maxRepl (ridx : List ℕ) : ℕ := ridx.foldl max 0

/-- `n_per_repl = sum(replication_idx == 0)` (line 306). -/
def nPerRepl (ridx : List ℕ) : ℕ := ridx.countP (fun x => decide (x = 0))

/-- The permutation-application loop of `_permute_realisations`
(`idtxl/stats.py` lines 319-325): for each replication
`0 .. max(replication_idx)`, gather the rows of that replication, reorder
them by the drawn permutation mask `perm` (`d[perm, :]`), and scatter them
back into place.  `perm` is the drawn permutation (`np.random.permutation`
output or the block mask), passed in explicitly. -/
def permuteRealisationsWith (realisations : List Row) (ridx : List ℕ)
    (perm : List ℕ) : List Row :=
  (List.range (maxRepl ridx + 1)).foldl
    (fun acc r =>
      scatterMask acc (maskOf ridx r)
        (applyGather (gatherMask acc (maskOf ridx r)) perm))
    realisations

/-- The block-permutation mask construction of `_permute_realisations`
(`idtxl/stats.py` lines 310-317) for an integer `perm_range`: the span of
`n_per_repl` positions is filled block by block, block `p` receiving
`np.random.permutation(perm_range) + i` (with `i = p * perm_range`), and a
final remainder block of length `n_per_repl % perm_range` receiving
`np.random.permutation(remainder) + i`.  The random draws are passed in
explicitly: `draws p` is the drawn permutation for block `p`, `rdraw` the
one for the remainder block. -/
def buildBlockPerm (n_per_repl perm_range : ℕ) (draws : ℕ → List ℕ)
    (rdraw : List ℕ) : List ℕ :=
  let full := ((List.range (n_per_repl / perm_range)).map
    (fun p => (draws p).map (fun x => x + p * perm_range))).flatten
  if n_per_repl % perm_range > 0 then
    full ++ rdraw.map (fun x => x + (n_per_repl / perm_range) * perm_range)
  else full

/-- C2: for every non-empty one-dimensional distribution, the one-tailed
p-value is the count of entries strictly greater than the statistic divided
by the length (ties count toward neither side, being excluded from the
strict count); on distribution `[0.1, 0.2, 0.3, 0.9]` with `alpha = 0.05`,
statistic `0.5` gives `(false, 1/4)` and statistic `0.95` gives
`(true, 0)`. -/
theorem findPvalue_one_tailed :
    (∀ (dist : List ℚ) (statistic alpha : ℚ), dist ≠ [] →
      findPvalue statistic (oneD dist) alpha "one" =
        .ok ((countGT dist statistic : ℚ) / dist.length < alpha,
             (countGT dist statistic : ℚ) / dist.length)) ∧
    findPvalue (1/2) (oneD [1/10, 2/10, 3/10, 9/10]) (1/20) "one" =
      .ok (false, 1/4) ∧
    findPvalue (19/20) (oneD [1/10, 2/10, 3/10, 9/10]) (1/20) "one" =
      .ok (true, 0) := by
  refine ⟨fun dist statistic alpha h => ?_, ?_, ?_⟩
  · simp [findPvalue, oneD, NDArr.ndim, List.length_eq_zero, h]
  · norm_num [findPvalue, oneD, NDArr.ndim, countGT, List.countP_cons]
  · norm_num [findPvalue, oneD, NDArr.ndim, countGT, List.countP_cons]

/-- Witness for `findPvalue_one_tailed`: its universally quantified part
applied to the concrete distribution `[1, 2, 5]` and statistic `3`. -/
theorem findPvalue_one_tailed_witness :
    findPvalue 3 (oneD [1, 2, 5]) (1/20) "one" =
      .ok ((countGT [1, 2, 5] 3 : ℚ) / (3 : ℕ) < 1/20,
           (countGT [1, 2, 5] 3 : ℚ) / (3 : ℕ)) :=
  findPvalue_one_tailed.1 [1, 2, 5] 3 (1/20) (by decide)

/-- C3 (counterexample): the claim says the engine fails with
`InvalidArgument` for every empty distribution, but on the empty
one-dimensional distribution the code passes the `assert` on `ndim` and then
divides by `distribution.shape[0] = 0`, failing with `ZeroDivisionError`
instead. -/
theorem findPvalue_empty_not_invalid_argument :
    findPvalue 0 (oneD []) (1/20) "one" = .error .zeroDivisionError ∧
    (Except.error PvErr.zeroDivisionError : Except PvErr (Bool × ℚ)) ≠
      .error .assertionError := by
  constructor
  · simp [findPvalue, oneD, NDArr.ndim]
  · simp

/-- C3 (amended): the engine fails with `InvalidArgument` (the Python
`assert`, `AssertionError`) for every distribution that is not
one-dimensional; for the empty one-dimensional distribution it fails with
`ZeroDivisionError` rather than `InvalidArgument`; and it returns normally
for every non-empty one-dimensional distribution. -/
theorem findPvalue_error_contract :
    (∀ (a : NDArr) (statistic alpha : ℚ) (tail : String), a.ndim ≠ 1 →
      findPvalue statistic a alpha tail = .error .assertionError) ∧
    (∀ (statistic alpha : ℚ) (tail : String),
      findPvalue statistic (oneD []) alpha tail = .error .zeroDivisionError) ∧
    (∀ (dist : List ℚ) (statistic alpha : ℚ) (tail : String), dist ≠ [] →
      ∃ r, findPvalue statistic (oneD dist) alpha tail = .ok r) := by
  refine ⟨fun a statistic alpha tail h => ?_, fun statistic alpha tail => ?_,
    fun dist statistic alpha tail h => ?_⟩
  · simp [findPvalue, h]
  · simp [findPvalue, oneD, NDArr.ndim]
  · unfold findPvalue
    rw [if_neg (by simp [oneD, NDArr.ndim]),
        if_neg (by simpa [oneD, List.length_eq_zero] using h)]
    exact ⟨_, rfl⟩

/-- Witness for `findPvalue_error_contract`: a two-dimensional array is
rejected with the assertion error, and a non-empty one-dimensional
distribution returns normally. -/
theorem findPvalue_error_contract_witness :
    findPvalue 0 ⟨[2, 2], [1, 2, 3, 4]⟩ (1/20) "one" =
      .error .assertionError ∧
    ∃ r, findPvalue 0 (oneD [5]) (1/20) "two" = .ok r :=
  ⟨findPvalue_error_contract.1 ⟨[2, 2], [1, 2, 3, 4]⟩ 0 (1/20) "one" (by decide),
   findPvalue_error_contract.2.2 [5] 0 (1/20) "two" (by decide)⟩

/-- C9: for every non-empty one-dimensional distribution, the two-tailed
p-value is the minimum of the fraction of entries strictly greater than the
statistic and the fraction strictly smaller, with no doubling of the
one-sided tail. -/
theorem findPvalue_two_tailed (dist : List ℚ) (statistic alpha : ℚ)
    (h : dist ≠ []) :
    findPvalue statistic (oneD dist) alpha "two" =
      .ok (min ((countGT dist statistic : ℚ) / dist.length)
               ((countLT dist statistic : ℚ) / dist.length) < alpha,
           min ((countGT dist statistic : ℚ) / dist.length)
               ((countLT dist statistic : ℚ) / dist.length)) := by
  simp [findPvalue, oneD, NDArr.ndim, List.length_eq_zero, h]

/-- Witness for `findPvalue_two_tailed`: applied at distribution
`[1, 2, 5]`, statistic `3`. -/
theorem findPvalue_two_tailed_witness :
    findPvalue 3 (oneD [1, 2, 5]) (1/20) "two" =
      .ok (min ((countGT [1, 2, 5] 3 : ℚ) / (3 : ℕ))
               ((countLT [1, 2, 5] 3 : ℚ) / (3 : ℕ)) < 1/20,
           min ((countGT [1, 2, 5] 3 : ℚ) / (3 : ℕ))
               ((countLT [1, 2, 5] 3 : ℚ) / (3 : ℕ))) :=
  findPvalue_two_tailed [1, 2, 5] 3 (1/20) (by decide)

/-- C4: with an empty candidate set, `max_statistic` and `min_statistic`
return significant (`True`) for every table builder, observed statistic
and permutation count, and the build flag is `false`: no surrogate table
is built. -/
theorem max_min_statistic_empty_candidate_set
    (surrogateTable : List Candidate → ℕ → SurrTable) (te : ℚ)
    (n_permutations : ℕ) :
    max_statistic surrogateTable [] te n_permutations =
      (.ok (.bare true), false) ∧
    min_statistic surrogateTable [] te n_permutations =
      (.ok (.bare true), false) :=
  ⟨rfl, rfl⟩

/-- Helper: a successful `Except.map` onto `StatReturn.pair` always yields a
`pair`, never a `bare` boolean. -/
theorem except_map_pair_ok (e : Except PvErr (Bool × ℚ)) (r : StatReturn)
    (h : e.map (fun x => StatReturn.pair x.1 x.2) = .ok r) :
    ∃ s p, r = .pair s p := by
  cases e with
  | error err => simp [Except.map] at h
  | ok x => exact ⟨x.1, x.2, by simpa [Except.map] using h.symm⟩

/-- C5: with an empty candidate set the returned value is the bare boolean
`True`, which is not a `(significance, p_value)` pair; with a non-empty
candidate set every normal return is such a pair, so a p-value component is
produced exactly when the candidate set is non-empty. -/
theorem max_min_statistic_return_shape :
    (∀ (builder : List Candidate → ℕ → SurrTable) (te : ℚ) (n : ℕ),
      (max_statistic builder [] te n).1 = .ok (.bare true) ∧
      (min_statistic builder [] te n).1 = .ok (.bare true) ∧
      ∀ s p, StatReturn.bare true ≠ .pair s p) ∧
    (∀ (builder : List Candidate → ℕ → SurrTable) (cs : List Candidate)
       (te : ℚ) (n : ℕ), cs ≠ [] →
      (∀ r, (max_statistic builder cs te n).1 = .ok r →
        ∃ s p, r = .pair s p) ∧
      (∀ r, (min_statistic builder cs te n).1 = .ok r →
        ∃ s p, r = .pair s p)) := by
  constructor
  · exact fun builder te n => ⟨rfl, rfl, fun s p => by simp⟩
  · intro builder cs te n h
    have hne : cs.isEmpty = false := by simpa [List.isEmpty_iff] using h
    constructor
    · intro r hr
      rw [max_statistic] at hr
      simp only [hne, Bool.false_eq_true, if_false] at hr
      exact except_map_pair_ok _ r hr
    · intro r hr
      rw [min_statistic] at hr
      simp only [hne, Bool.false_eq_true, if_false] at hr
      exact except_map_pair_ok _ r hr

/-- Witness for `max_min_statistic_return_shape`: applied to the singleton
candidate set `[(0, 1)]` with a concrete two-permutation table builder. -/
theorem max_min_statistic_return_shape_witness :
    ∃ s p, StatReturn.pair false 1 = .pair s p :=
  (max_min_statistic_return_shape.2 (fun _ _ => [[1], [2]]) [(0, 1)] 0 2
      (by decide)).1 (.pair false 1)
    (by norm_num [max_statistic, findTableMax, colMax, findPvalue, oneD,
          NDArr.ndim, countGT, List.countP_cons, Except.map])

/-- C6: in the rank-wise scan, any non-significant rank (in particular the
first one, which terminates the loop) forces every strictly higher rank to
keep its zero-initialized outcome `(significant = false, p_value = 0)`; so
if rank 0 is non-significant, every rank `1..n-1` is reported
non-significant. -/
theorem scanRanks_early_stop (alpha : ℚ) (pairs : List (ℚ × List ℚ))
    (sigs : List Bool) (ps : List ℚ)
    (h : scanRanks alpha pairs = .ok (sigs, ps)) :
    sigs.length = pairs.length ∧ ps.length = pairs.length ∧
    ∀ k, k < sigs.length → sigs.getD k true = false →
      ∀ j, k < j → j < sigs.length →
        sigs.getD j true = false ∧ ps.getD j 0 = 0 := by
  induction pairs generalizing sigs ps with
  | nil =>
    rw [scanRanks] at h
    obtain ⟨rfl, rfl⟩ : sigs = [] ∧ ps = [] := by
      cases h
      exact ⟨rfl, rfl⟩
    exact ⟨rfl, rfl, by simp⟩
  | cons hd rest ih =>
    obtain ⟨s, row⟩ := hd
    rw [scanRanks] at h
    cases hfp : findPvalue s (oneD row) alpha "one" with
    | error e => rw [hfp] at h; cases h
    | ok r =>
      rw [hfp] at h
      dsimp only at h
      by_cases hr : r.1 = true
      · rw [if_pos hr] at h
        cases hrec : scanRanks alpha rest with
        | error e => rw [hrec] at h; cases h
        | ok pr =>
          obtain ⟨sigs0, ps0⟩ := pr
          rw [hrec] at h
          obtain ⟨rfl, rfl⟩ : sigs = r.1 :: sigs0 ∧ ps = r.2 :: ps0 := by
            cases h
            exact ⟨rfl, rfl⟩
          obtain ⟨hl1, hl2, htail⟩ := ih sigs0 ps0 hrec
          refine ⟨by simp [hl1], by simp [hl2], ?_⟩
          intro k hk hkf j hkj hj
          cases k with
          | zero => simp [hr] at hkf
          | succ k0 =>
            cases j with
            | zero => omega
            | succ j0 =>
              simp only [List.getD_cons_succ] at hkf ⊢
              exact htail k0 (by simpa using hk) hkf j0 (by omega)
                (by simpa using hj)
      · rw [if_neg hr] at h
        obtain ⟨rfl, rfl⟩ :
            sigs = r.1 :: List.replicate rest.length false ∧
            ps = r.2 :: List.replicate rest.length 0 := by
          cases h
          exact ⟨rfl, rfl⟩
        refine ⟨by simp, by simp, ?_⟩
        intro k hk hkf j hkj hj
        cases j with
        | zero => omega
        | succ j0 =>
          simp only [List.getD_cons_succ, List.length_cons,
            List.length_replicate] at hj ⊢
          constructor
          · rw [List.getD_eq_getElem _ _ (by simpa using hj)]
            simp
          · rw [List.getD_eq_getElem _ _ (by simpa using hj)]
            simp

/-- Witness for `scanRanks_early_stop`: a concrete two-rank scan whose rank
0 is non-significant; the theorem yields that rank 1 keeps the
zero-initialized outcome. -/
theorem scanRanks_early_stop_witness :
    ([false, false] : List Bool).getD 1 true = false ∧
    ([1, 0] : List ℚ).getD 1 0 = 0 :=
  (scanRanks_early_stop (1/20) [(0, [1, 2]), (5, [1, 2])] [false, false]
      [1, 0] (by norm_num [scanRanks, findPvalue, oneD, NDArr.ndim, countGT,
        List.countP_cons])).2.2
    0 (by decide) (by decide) 1 (by decide) (by decide)

/-- C1 (failing input): with leave-one-out statistics `[3, 1, 2]` (so
`argsort` is the 3-cycle `[1, 2, 0]`) and a table whose sorted rank rows are
`[0,0,0,0]`, `[5,5,5,5]`, `[9,9,9,9]`, the rank scan computes the outcome
`(true, 0)` at rank 0 — the rank of candidate 1 — and `(false, 1)` at rank
1, yet the function returns `significance = [false, false, true]`: the entry
at index 1 is NOT the outcome computed for candidate 1.  The final
fancy-indexing `significance[conditional_order]` applies the sort
permutation forward instead of inverting it, so the outputs are not indexed
by the input candidate order (the code comment `get back original order`
notwithstanding).  For contrast, `specUnsort` — un-sorting as the spec words
it, by the inverse permutation — yields `[false, true, false]` on the same
scan outcome, which differs from what the code returns. -/
theorem max_statistic_sequential_unsort_bug :
    max_statistic_sequential [3, 1, 2]
        [[5, 0, 9], [5, 0, 9], [5, 0, 9], [5, 0, 9]] =
      .ok ([false, false, true], [1, 0, 0]) ∧
    argsort [3, 1, 2] = [1, 2, 0] ∧
    scanRanks (1/20) [(1, [0, 0, 0, 0]), (2, [5, 5, 5, 5]), (3, [9, 9, 9, 9])] =
      .ok ([true, false, false], [0, 1, 0]) ∧
    ([false, false, true] : List Bool).getD 1 false ≠
      ([true, false, false] : List Bool).getD 0 true ∧
    specUnsort [3, 1, 2] [true, false, false] [0, 1, 0] =
      ([false, true, false], [0, 0, 1]) ∧
    ([false, false, true] : List Bool) ≠ [false, true, false] := by
  have hscanC : scanRanks (1/20)
      [((1 : ℚ), [(0 : ℚ), 0, 0, 0]), (2, [5, 5, 5, 5]), (3, [9, 9, 9, 9])] =
      .ok ([true, false, false], [0, 1, 0]) := by
    norm_num [scanRanks, findPvalue, oneD, NDArr.ndim, countGT,
      List.countP_cons]
  have hscan : scanRanks (1/20)
      ((sortAsc [3, 1, 2]).zip
        ((List.range ([3, 1, 2] : List ℚ).length).map
          (tableRow (sort_table_max
            [[5, 0, 9], [5, 0, 9], [5, 0, 9], [5, 0, 9]]).1))) =
      .ok ([true, false, false], [0, 1, 0]) := by
    rw [show (sortAsc [3, 1, 2]).zip
        ((List.range ([3, 1, 2] : List ℚ).length).map
          (tableRow (sort_table_max
            [[5, 0, 9], [5, 0, 9], [5, 0, 9], [5, 0, 9]]).1)) =
        [((1 : ℚ), [(0 : ℚ), 0, 0, 0]), (2, [5, 5, 5, 5]), (3, [9, 9, 9, 9])]
      from by decide]
    exact hscanC
  refine ⟨?_, by decide, hscanC, by decide, by decide, by decide⟩
  simp only [max_statistic_sequential]
  rw [hscan]
  dsimp only
  refine congrArg Except.ok ?_
  decide

/-- C10 (counterexample): `_sort_table_max` does NOT leave the table passed
in by the caller unchanged: sorting the single column `[2, 1]` leaves the
caller holding `[[1, 2]]`, not the original `[[2, 1]]`. -/
theorem sort_table_max_mutates_input :
    (sort_table_max [[2, 1]]).2 ≠ [[2, 1]] := by decide

/-- C10 (amended): `_sort_table_max` returns the table with each column
independently sorted ascending (each output column is an ascending
permutation of the corresponding input column), but it sorts IN PLACE: after
the call the array the caller passed in is the same mutated, sorted array,
not the unchanged original. -/
theorem sort_table_max_sorts_columns (table : SurrTable) (j : ℕ)
    (hj : j < table.length) :
    List.Sorted (· ≤ ·) ((sort_table_max table).1.getD j []) ∧
    ((sort_table_max table).1.getD j []).Perm (table.getD j []) ∧
    (sort_table_max table).2 = (sort_table_max table).1 := by
  have h1 : (sort_table_max table).1.getD j [] = sortAsc (table.getD j []) := by
    simp [sort_table_max, List.getD_eq_getElem?_getD, List.getElem?_map,
      List.getElem?_eq_getElem hj]
  rw [h1]
  exact ⟨List.sorted_insertionSort _ _, List.perm_insertionSort _ _, rfl⟩

/-- Witness for `sort_table_max_sorts_columns`: the single-column table
`[[2, 1]]` at column 0. -/
theorem sort_table_max_sorts_columns_witness :
    List.Sorted (· ≤ ·) ((sort_table_max [[2, 1]]).1.getD 0 []) ∧
    ((sort_table_max [[2, 1]]).1.getD 0 []).Perm
      (([[2, 1]] : SurrTable).getD 0 []) ∧
    (sort_table_max [[2, 1]]).2 = (sort_table_max [[2, 1]]).1 :=
  sort_table_max_sorts_columns [[2, 1]] 0 (by decide)

/-- C8: on a within-replication span of 7 rows with integer block size 3,
the mask is built from consecutive blocks of sizes `[3, 3, 1]` — positions
`0..2` permuted within `{0, 1, 2}`, positions `3..5` permuted within
`{3, 4, 5}`, each by its own independent draw — and the final remainder
block of size 1 is the identity: position 6 always maps to 6, for every
drawn permutation. -/
theorem buildBlockPerm_blocks_7_3 (draws : ℕ → List ℕ) (rdraw : List ℕ)
    (hd : ∀ p, p < 2 → (draws p).Perm (List.range 3))
    (hr : rdraw.Perm (List.range 1)) :
    (buildBlockPerm 7 3 draws rdraw).length = 7 ∧
    (buildBlockPerm 7 3 draws rdraw).getD 6 0 = 6 ∧
    ((buildBlockPerm 7 3 draws rdraw).take 3).Perm (List.range 3) ∧
    (((buildBlockPerm 7 3 draws rdraw).drop 3).take 3).Perm [3, 4, 5] ∧
    (buildBlockPerm 7 3 draws rdraw).drop 6 = [6] := by
  have h0 : (draws 0).length = 3 := by
    simpa using (hd 0 (by decide)).length_eq
  have h1 : (draws 1).length = 3 := by
    simpa using (hd 1 (by decide)).length_eq
  have hrd : rdraw = [0] := List.perm_singleton.mp (by
    simpa [show List.range 1 = [0] from rfl] using hr)
  have hfull : buildBlockPerm 7 3 draws rdraw =
      (draws 0).map (fun x => x + 0 * 3) ++
        ((draws 1).map (fun x => x + 1 * 3) ++ [6]) := by
    simp [buildBlockPerm, hrd, List.range_succ, List.append_assoc]
  have hlen0 : ((draws 0).map (fun x => x + 0 * 3)).length = 3 := by
    simp [h0]
  have hlen1 : ((draws 1).map (fun x => x + 1 * 3)).length = 3 := by
    simp [h1]
  have htake : (buildBlockPerm 7 3 draws rdraw).take 3 =
      (draws 0).map (fun x => x + 0 * 3) := by
    rw [hfull]
    exact List.take_left' hlen0
  have hdrop : (buildBlockPerm 7 3 draws rdraw).drop 3 =
      (draws 1).map (fun x => x + 1 * 3) ++ [6] := by
    rw [hfull]
    exact List.drop_left' hlen0
  have hdroptake : ((buildBlockPerm 7 3 draws rdraw).drop 3).take 3 =
      (draws 1).map (fun x => x + 1 * 3) := by
    rw [hdrop]
    exact List.take_left' hlen1
  have hdrop6 : (buildBlockPerm 7 3 draws rdraw).drop 6 = [6] := by
    have hdd : ((buildBlockPerm 7 3 draws rdraw).drop 3).drop 3 =
        (buildBlockPerm 7 3 draws rdraw).drop 6 := by
      rw [List.drop_drop]
    rw [← hdd, hdrop]
    exact List.drop_left' hlen1
  refine ⟨?_, ?_, ?_, ?_, hdrop6⟩
  · rw [hfull]
    simp [h0, h1]
  · have h6 : (buildBlockPerm 7 3 draws rdraw)[6]? =
        ((buildBlockPerm 7 3 draws rdraw).drop 6)[0]? := by
      rw [List.getElem?_drop]
    rw [List.getD_eq_getElem?_getD, h6, hdrop6]
    rfl
  · rw [htake]
    have := (hd 0 (by decide)).map (fun x => x + 0 * 3)
    refine this.trans ?_
    simp [List.range_succ]
  · rw [hdroptake]
    have := (hd 1 (by decide)).map (fun x => x + 1 * 3)
    refine List.Perm.trans (by simpa using this) ?_
    simp [List.range_succ]

/-- Witness for `buildBlockPerm_blocks_7_3`: concrete draws `[2, 0, 1]` for
both full blocks and the forced `[0]` for the remainder block. -/
theorem buildBlockPerm_blocks_7_3_witness :
    (buildBlockPerm 7 3 (fun _ => [2, 0, 1]) [0]).getD 6 0 = 6 :=
  (buildBlockPerm_blocks_7_3 (fun _ => [2, 0, 1]) [0]
    (fun p _ => (by decide : ([2, 0, 1] : List ℕ).Perm (List.range 3)))
    (by decide)).2.1

/-- Helper: scattering never changes the number of rows. -/
theorem scatterMask_length (xs : List Row) : ∀ (bs : List Bool) (repl : List Row),
    (scatterMask xs bs repl).length = xs.length := by
  induction xs with
  | nil => intro bs repl; cases bs <;> simp [scatterMask]
  | cons x xs ih =>
    intro bs repl
    cases bs with
    | nil => simp [scatterMask]
    | cons b bs => cases b <;> simp [scatterMask, ih]

/-- Helper: gathering returns one row per mask-true position. -/
theorem gatherMask_length (xs : List Row) : ∀ (bs : List Bool),
    bs.length = xs.length → (gatherMask xs bs).length = bs.countP id := by
  induction xs with
  | nil =>
    intro bs h
    cases bs with
    | nil => simp [gatherMask]
    | cons b bs => simp at h
  | cons x xs ih =>
    intro bs h
    cases bs with
    | nil => simp at h
    | cons b bs =>
      cases b <;>
        simp [gatherMask, List.countP_cons, ih bs (by simpa using h)]

/-- Helper: reading back the mask-true positions immediately after writing
them recovers exactly what was written. -/
theorem gather_scatter_roundtrip (xs : List Row) : ∀ (bs : List Bool)
    (repl : List Row), bs.length = xs.length → repl.length = bs.countP id →
    gatherMask (scatterMask xs bs repl) bs = repl := by
  induction xs with
  | nil =>
    intro bs repl hb hr
    cases bs with
    | nil =>
      have : repl = [] := by
        simpa [List.length_eq_zero] using hr
      simp [gatherMask, scatterMask, this]
    | cons b bs => simp at hb
  | cons x xs ih =>
    intro bs repl hb hr
    cases bs with
    | nil => simp at hb
    | cons b bs =>
      cases b with
      | false =>
        simp only [List.countP_cons, id, if_neg] at hr
        simp [scatterMask, gatherMask,
          ih bs repl (by simpa using hb) (by simpa using hr)]
      | true =>
        cases repl with
        | nil => simp [List.countP_cons] at hr
        | cons y t =>
          have ht : t.length = bs.countP id := by
            simpa [List.countP_cons] using hr
          simp [scatterMask, gatherMask, ih bs t (by simpa using hb) ht]

/-- Helper: writing through one mask leaves the rows gathered through any
pointwise-disjoint mask untouched. -/
theorem gather_scatter_frame (xs : List Row) : ∀ (bs cs : List Bool)
    (repl : List Row), bs.length = xs.length → cs.length = xs.length →
    (∀ i, bs.getD i false = true → cs.getD i false = false) →
    gatherMask (scatterMask xs bs repl) cs = gatherMask xs cs := by
  induction xs with
  | nil =>
    intro bs cs repl hb hc hdisj
    cases bs with
    | nil =>
      cases cs with
      | nil => rfl
      | cons c cs => simp at hc
    | cons b bs => simp at hb
  | cons x xs ih =>
    intro bs cs repl hb hc hdisj
    cases bs with
    | nil => simp at hb
    | cons b bs =>
      cases cs with
      | nil => simp at hc
      | cons c cs =>
        have hdisj2 : ∀ i, bs.getD i false = true → cs.getD i false = false :=
          fun i h => by
            have := hdisj (i + 1) (by simpa using h)
            simpa using this
        cases b with
        | true =>
          have hc0 : c = false := hdisj 0 (by simp)
          subst hc0
          simp [scatterMask, gatherMask,
            ih bs cs repl.tail (by simpa using hb) (by simpa using hc) hdisj2]
        | false =>
          cases c <;>
            simp [scatterMask, gatherMask,
              ih bs cs repl (by simpa using hb) (by simpa using hc) hdisj2]

/-- Helper: entry `i` of the replication mask, inside bounds. -/
theorem maskOf_getD (ridx : List ℕ) (r : ℕ) (i : ℕ) (h : i < ridx.length) :
    (maskOf ridx r).getD i false = decide (ridx.getD i 0 = r) := by
  simp [maskOf, List.getD_eq_getElem?_getD, List.getElem?_map,
    List.getElem?_eq_getElem h]

/-- Helper: masks of two different replication ids are pointwise disjoint. -/
theorem maskOf_disjoint (ridx : List ℕ) (r r2 : ℕ) (h : r ≠ r2) :
    ∀ i, (maskOf ridx r).getD i false = true →
      (maskOf ridx r2).getD i false = false := by
  intro i hi
  by_cases hlt : i < ridx.length
  · rw [maskOf_getD _ _ _ hlt] at hi
    rw [maskOf_getD _ _ _ hlt]
    simp only [decide_eq_true_eq] at hi
    rw [hi]
    simp [h]
  · rw [List.getD_eq_default] at hi
    · cases hi
    · simpa [maskOf] using Nat.le_of_not_lt hlt

/-- Helper: the number of mask-true positions is the number of rows of that
replication. -/
theorem countP_maskOf (ridx : List ℕ) (r : ℕ) :
    (maskOf ridx r).countP id = ridx.countP (fun x => decide (x = r)) := by
  simp [maskOf, List.countP_map, Function.comp]

/-- Helper: indexing a list by `0, 1, ..., length - 1` reproduces it. -/
theorem map_getD_range (l : List Row) :
    (List.range l.length).map (fun i => l.getD i []) = l := by
  apply List.ext_getElem
  · simp
  · intro i h1 h2
    simp [List.getD_eq_getElem?_getD, List.getElem?_eq_getElem h2]

/-- Helper: applying a drawn permutation of all positions to a block of rows
permutes the block (same rows as a multiset). -/
theorem applyGather_perm (d : List Row) (perm : List ℕ)
    (h : perm.Perm (List.range d.length)) : (applyGather d perm).Perm d := by
  have hm := h.map (fun j => d.getD j [])
  rw [map_getD_range] at hm
  exact hm

/-- Helper: a row read at a mask-true position belongs to the gather of that
mask. -/
theorem getD_mem_gatherMask (xs : List Row) : ∀ (bs : List Bool) (i : ℕ),
    i < xs.length → bs.getD i false = true →
    xs.getD i [] ∈ gatherMask xs bs := by
  induction xs with
  | nil =>
    intro bs i h _
    simp at h
  | cons x xs ih =>
    intro bs i hi hb
    cases bs with
    | nil => simp at hb
    | cons b bs =>
      cases i with
      | zero =>
        have hbt : b = true := by simpa using hb
        subst hbt
        simp [gatherMask]
      | succ i =>
        have hmem := ih bs i (by simpa using hi) (by simpa using hb)
        cases b with
        | false =>
          rw [List.getD_cons_succ]
          have hg : gatherMask (x :: xs) (false :: bs) = gatherMask xs bs := by
            simp [gatherMask]
          rw [hg]
          exact hmem
        | true =>
          rw [List.getD_cons_succ]
          have hg : gatherMask (x :: xs) (true :: bs) = x :: gatherMask xs bs := by
            simp [gatherMask]
          rw [hg]
          exact List.mem_cons_of_mem x hmem

/-- Helper: the fold seed is a lower bound of `foldl max`. -/
theorem seed_le_foldl_max (l : List ℕ) : ∀ (a : ℕ), a ≤ l.foldl max a := by
  induction l with
  | nil => intro a; exact Nat.le_refl a
  | cons y ys ih =>
    intro a
    exact le_trans (Nat.le_max_left a y) (ih (max a y))

/-- Helper: every element is bounded by `foldl max`. -/
theorem mem_le_foldl_max (l : List ℕ) : ∀ (a x : ℕ), x ∈ l → x ≤ l.foldl max a := by
  induction l with
  | nil => intro a x h; cases h
  | cons y ys ih =>
    intro a x h
    rcases List.mem_cons.mp h with rfl | hmem
    · exact le_trans (Nat.le_max_right a x) (seed_le_foldl_max ys (max a x))
    · exact ih (max a y) x hmem

/-- Helper: the length of the realisation array is preserved through the
whole per-replication loop. -/
theorem foldl_scatter_length (ridx perm : List ℕ) : ∀ (rs : List ℕ)
    (acc : List Row),
    (rs.foldl (fun acc r => scatterMask acc (maskOf ridx r)
      (applyGather (gatherMask acc (maskOf ridx r)) perm)) acc).length =
    acc.length := by
  intro rs
  induction rs with
  | nil => intro acc; rfl
  | cons r0 rs ih =>
    intro acc
    rw [List.foldl_cons, ih]
    exact scatterMask_length _ _ _

/-- Helper (loop invariant): after folding the per-replication loop over a
duplicate-free list of replication ids, the gather of a processed id is the
permuted gather of the input, and the gather of an unprocessed id is
untouched. -/
theorem foldl_gather_invariant (ridx perm : List ℕ) (n : ℕ)
    (hperm : perm.Perm (List.range n)) : ∀ (rs : List ℕ) (acc : List Row),
    rs.Nodup → acc.length = ridx.length →
    (∀ r, r ∈ rs → ridx.countP (fun x => decide (x = r)) = n) →
    ∀ r, gatherMask (rs.foldl (fun acc r => scatterMask acc (maskOf ridx r)
          (applyGather (gatherMask acc (maskOf ridx r)) perm)) acc)
        (maskOf ridx r) =
      if r ∈ rs then applyGather (gatherMask acc (maskOf ridx r)) perm
      else gatherMask acc (maskOf ridx r) := by
  intro rs
  induction rs with
  | nil => intro acc _ _ _ r; simp
  | cons r0 rs ih =>
    intro acc hnd hlen hcount r
    obtain ⟨hr0, hndrs⟩ := List.nodup_cons.mp hnd
    have hmask_len : ∀ r2, (maskOf ridx r2).length = acc.length := by
      intro r2; simp [maskOf, hlen]
    have hstep_gather : ∀ r2, r2 ≠ r0 →
        gatherMask (scatterMask acc (maskOf ridx r0)
          (applyGather (gatherMask acc (maskOf ridx r0)) perm))
          (maskOf ridx r2) = gatherMask acc (maskOf ridx r2) := by
      intro r2 hne
      exact gather_scatter_frame acc (maskOf ridx r0) (maskOf ridx r2) _
        (hmask_len r0) (hmask_len r2) (maskOf_disjoint ridx r0 r2 (fun hc => hne hc.symm))
    have hstep_gather0 :
        gatherMask (scatterMask acc (maskOf ridx r0)
          (applyGather (gatherMask acc (maskOf ridx r0)) perm))
          (maskOf ridx r0) =
        applyGather (gatherMask acc (maskOf ridx r0)) perm := by
      apply gather_scatter_roundtrip acc (maskOf ridx r0) _ (hmask_len r0)
      have hplen : perm.length = n := by
        simpa using hperm.length_eq
      rw [applyGather, List.length_map, hplen, countP_maskOf]
      exact (hcount r0 (List.mem_cons_self r0 rs)).symm
    have hlen2 : (scatterMask acc (maskOf ridx r0)
        (applyGather (gatherMask acc (maskOf ridx r0)) perm)).length =
        ridx.length := by
      rw [scatterMask_length]; exact hlen
    have ihr := ih (scatterMask acc (maskOf ridx r0)
        (applyGather (gatherMask acc (maskOf ridx r0)) perm)) hndrs hlen2
      (fun r2 h2 => hcount r2 (List.mem_cons_of_mem r0 h2)) r
    rw [List.foldl_cons, ihr]
    by_cases hrr : r = r0
    · subst hrr
      rw [if_neg hr0, if_pos (List.mem_cons_self r rs), hstep_gather0]
    · by_cases hmem : r ∈ rs
      · rw [if_pos hmem, if_pos (List.mem_cons_of_mem r0 hmem),
          hstep_gather r hrr]
      · rw [if_neg hmem, hstep_gather r hrr,
          if_neg (by simp [List.mem_cons, hrr, hmem])]

/-- C7: for every realisation matrix and replication index with equal-length
replications, and every drawn permutation of the within-replication
positions, `_permute_realisations` preserves, for each replication id, the
multiset of rows carrying that id (first conjunct), and the row at every
position still comes from the rows of its own replication id — no row moves
into the row span of a different replication (second conjunct). -/
theorem permute_realisations_within_replications
    (realisations : List Row) (ridx perm : List ℕ)
    (hlen : realisations.length = ridx.length)
    (hcount : ∀ r, r < maxRepl ridx + 1 →
      ridx.countP (fun x => decide (x = r)) = nPerRepl ridx)
    (hperm : perm.Perm (List.range (nPerRepl ridx))) :
    (∀ r, (gatherMask (permuteRealisationsWith realisations ridx perm)
        (maskOf ridx r)).Perm (gatherMask realisations (maskOf ridx r))) ∧
    ∀ i, i < ridx.length →
      (permuteRealisationsWith realisations ridx perm).getD i [] ∈
        gatherMask realisations (maskOf ridx (ridx.getD i 0)) := by
  have hinv := foldl_gather_invariant ridx perm (nPerRepl ridx) hperm
    (List.range (maxRepl ridx + 1)) realisations (List.nodup_range _) hlen
    (fun r hr => hcount r (List.mem_range.mp hr))
  have part1 : ∀ r, (gatherMask (permuteRealisationsWith realisations ridx perm)
      (maskOf ridx r)).Perm (gatherMask realisations (maskOf ridx r)) := by
    intro r
    rw [permuteRealisationsWith, hinv r]
    by_cases hr : r ∈ List.range (maxRepl ridx + 1)
    · rw [if_pos hr]
      apply applyGather_perm
      have hglen : (gatherMask realisations (maskOf ridx r)).length =
          nPerRepl ridx := by
        rw [gatherMask_length realisations (maskOf ridx r)
          (by simp [maskOf, hlen]), countP_maskOf]
        exact hcount r (List.mem_range.mp hr)
      rw [hglen]
      exact hperm
    · rw [if_neg hr]
  refine ⟨part1, ?_⟩
  intro i hi
  have hFlen : (permuteRealisationsWith realisations ridx perm).length =
      ridx.length := by
    rw [permuteRealisationsWith, foldl_scatter_length, hlen]
  have hrmem : ridx.getD i 0 ∈ ridx := by
    rw [List.getD_eq_getElem _ _ hi]
    exact List.getElem_mem hi
  have hmaskT : (maskOf ridx (ridx.getD i 0)).getD i false = true := by
    rw [maskOf_getD _ _ _ hi]
    simp
  have hmem := getD_mem_gatherMask (permuteRealisationsWith realisations ridx perm)
    (maskOf ridx (ridx.getD i 0)) i (by rw [hFlen]; exact hi) hmaskT
  exact ((part1 (ridx.getD i 0)).mem_iff).mp hmem

/-- Witness for `permute_realisations_within_replications`: four one-column
rows in two equal replications `[0, 0, 1, 1]`, swapped by the drawn
permutation `[1, 0]`; the rows carrying id 1 are a permutation of the
original ones. -/
theorem permute_realisations_within_replications_witness :
    (gatherMask (permuteRealisationsWith [[1], [2], [3], [4]] [0, 0, 1, 1] [1, 0])
      (maskOf [0, 0, 1, 1] 1)).Perm
      (gatherMask [[1], [2], [3], [4]] (maskOf [0, 0, 1, 1] 1)) :=
  (permute_realisations_within_replications [[1], [2], [3], [4]] [0, 0, 1, 1]
    [1, 0] (by decide) (by decide) (by decide)).1 1

end IDTxl
